import Mathlib

/-!
Shallow embedding of the `ducksoso/logger` Go package (logger.go, sink.go)
for verification of its specification.

Modelling conventions:
* Go `level int` becomes `Int`; the level constants keep their values.
* Go strings become Lean `String`; `strings.HasSuffix` is embedded via
  `List.isSuffixOf` on the underlying character lists.
* An `io.Writer` is embedded as the list of strings written to it so far.
* The buffered channel `sinkCh` of `SinkHandler` is embedded as a FIFO
  `List Record` (head = oldest element) together with its capacity
  `bufSize` and a `chClosed` flag; a Go send that would panic (send on a
  closed channel) is embedded as `Except.error`.
* The concurrent producer/consumer execution of a `SinkHandler` is
  embedded as an interleaving of atomic actions (`Act`): a producer call
  of `Handle`, or one iteration of the consumer loop `process`.
-/

namespace GoLogger

/-- Go type `level int` (logger.go). -/
abbrev level := Int

/-- Logger levels (logger.go, `const` block): `CRITICAL level = iota; ...`. -/
def CRITICAL : level := 0

/-- Level `ERROR`. -/
def ERROR : level := 1

/-- Level `WARNING`. -/
def WARNING : level := 2

/-- Level `NOTICE`. -/
def NOTICE : level := 3

/-- Level `INFO`. -/
def INFO : level := 4

/-- Level `DEBUG`. -/
def DEBUG : level := 5

/-- Go `Record` struct (logger.go): all of the information about a single
log message.  `Args` holds opaque argument values; `Time` is an opaque
timestamp. -/
structure Record where
  Format      : String
  Args        : List String
  LoggerName  : String
  Level       : level
  Time        : Nat
  Filename    : String
  Line        : Int
  ProcessID   : Int
  ProcessName : String
deriving Repr, DecidableEq

/-- Go `Formatter` interface: formats a record into a message. -/
structure Formatter where
  Format : Record → String

/-- Go `BaseHandler` struct: a level threshold and a formatter. -/
structure BaseHandler where
  Level     : level
  Formatter : Formatter

/-- Go `BaseHandler.SetLevel` (logger.go). -/
def BaseHandler.SetLevel (h : BaseHandler) (l : level) : BaseHandler :=
  { h with Level := l }

/-- Go `BaseHandler.SetFormatter` (logger.go). -/
def BaseHandler.SetFormatter (h : BaseHandler) (f : GoLogger.Formatter) : BaseHandler :=
  { h with Formatter := f }

/-- Go `BaseHandler.FilterAndFormat` (logger.go): format the record when the
handler level admits it (`h.Level >= rec.Level`), otherwise return `""`. -/
def BaseHandler.FilterAndFormat (h : BaseHandler) (rec : Record) : String :=
  if h.Level ≥ rec.Level then h.Formatter.Format rec else ""

/-- Go escape sequence written before a colorized message
(`fmt.Sprintf("\033[%dm", levelColors[rec.Level])`), kept abstract in the
level argument. -/
def colorPrefix (l : level) : String := "\x1b[" ++ toString l ++ "m"

/-- Go `WriterHandler` struct: a `BaseHandler` plus an `io.Writer`,
embedded as the list of strings written so far. -/
structure WriterHandler where
  base     : BaseHandler
  Colorize : Bool
  written  : List String

/-- Go `WriterHandler.Handle` (logger.go): filter and format the record; if
the message is empty return without writing, otherwise write the message
(surrounded by color escape codes when `Colorize` is set). -/
def WriterHandler.Handle (b : WriterHandler) (rec : Record) : WriterHandler :=
  let message := b.base.FilterAndFormat rec
  if message = "" then b
  else
    { b with written :=
        b.written
          ++ (if b.Colorize then [colorPrefix rec.Level] else [])
          ++ [message]
          ++ (if b.Colorize then ["\x1b[0m"] else []) }

/-- Go `WriterHandler.Close` (logger.go): does nothing. -/
def WriterHandler.Close (b : WriterHandler) : WriterHandler := b

/-- Go `strings.HasSuffix s suffix`, embedded on character lists. -/
def hasSuffix (s suffix : String) : Bool :=
  suffix.data.isSuffixOf s.data

/-- Go `logger` struct (the default `Logger` implementation). -/
structure logger where
  Name      : String
  Level     : level
  calldepth : Int

/-- Go `logger.log` (logger.go): append a missing `"\n"` to the format
string, then build the `Record` that is passed to the handler.  The
call-site data (`file`, `line`) and process data (`time`, `pid`,
`pname`) gathered from the runtime are parameters of the embedding. -/
def logger.log (l : logger) (lv : level) (format : String) (args : List String)
    (file : String) (line : Int) (time : Nat) (pid : Int) (pname : String) :
    Record :=
  let format := if ¬ hasSuffix format "\n" then format ++ "\n" else format
  { Format := format
    Args := args
    LoggerName := l.Name
    Level := lv
    Time := time
    Filename := file
    Line := line
    ProcessID := pid
    ProcessName := pname }

/-- The Go `Handler` interface, as the operations available on a handler
state of type `σ` (the Lean image of `SetLevel`, `SetFormatter`,
`Handle`, `Close` for one concrete implementation). -/
structure HandlerOps (σ : Type) where
  setLevel : level → σ → σ
  setFormatter : Formatter → σ → σ
  handle : Record → σ → σ
  close : σ → σ

/-- The `LogRecorder` test handler (sink_test.go): it records every
record passed to `Handle` and remembers whether `Close` was called.
The embedding keeps the received records as one list in arrival order
(the Go version additionally groups them by `LoggerName`; the grouping
is recovered below by filtering on `LoggerName`). -/
structure LogRecorder where
  Level     : level
  Formatter : Formatter
  received  : List Record
  Closed    : Bool

/-- The `Handler` operations of `LogRecorder` (sink_test.go). -/
def LogRecorder.ops : HandlerOps LogRecorder where
  setLevel := fun l s => { s with Level := l }
  setFormatter := fun f s => { s with Formatter := f }
  handle := fun rec s => { s with received := s.received ++ [rec] }
  close := fun s => { s with Closed := true }

/-- Records held for logger name `n` — the Go
`LogRecorder.Records[n]` entry. -/
def LogRecorder.RecordsFor (s : LogRecorder) (n : String) : List Record :=
  s.received.filter (fun r => r.LoggerName == n)

/-- Go `SinkHandler` struct (sink.go): an inner handler, a buffered
channel `sinkCh` (embedded as a FIFO list, head = oldest, plus its
capacity and a closed flag).  The `sync.WaitGroup` used to join the
consumer is represented by the modelling of `Close` below, which drains
the queue before returning. -/
structure SinkHandler (σ : Type) where
  inner   : σ
  sinkCh  : List Record
  bufSize : Nat
  chClosed : Bool

/-- Go `NewSinkHandler` (sink.go): fresh empty queue of capacity `bufSize`
around `inner`; the consumer goroutine is started (it blocks on the
empty queue, so the initial state has an empty queue and an open
channel). -/
def NewSinkHandler (σ : Type) (inner : σ) (bufSize : Nat) : SinkHandler σ where
  inner := inner
  sinkCh := []
  bufSize := bufSize
  chClosed := false

/-- The diagnostic line `SinkHandler.Handle` prints to stderr when the
buffer is full (sink.go). -/
def dropDiagnostic : String := "SinkHandler buffer too small dropping record\n"

/-- Go `SinkHandler.Handle` (sink.go):
`select { case b.sinkCh <- rec: default: fmt.Fprintf(os.Stderr, ...) }`.
A buffered-channel send is ready when the buffer has room; if the
channel is closed the send case is also ready and the chosen send
panics (`Except.error`).  Otherwise, with room the record is enqueued
with nothing written to stderr, and with a full buffer the `default`
branch drops the record and writes the diagnostic line to stderr.
The second component of the result is the list of stderr lines written
by the call. -/
def SinkHandler.Handle (b : SinkHandler σ) (rec : Record) :
    Except Unit (SinkHandler σ × List String) :=
  if b.chClosed then
    Except.error ()
  else if b.sinkCh.length < b.bufSize then
    Except.ok ({ b with sinkCh := b.sinkCh ++ [rec] }, [])
  else
    Except.ok (b, [dropDiagnostic])

/-- Go `SinkHandler.Status` (sink.go): `return b.bufSize, len(b.sinkCh)`. -/
def SinkHandler.Status (b : SinkHandler σ) : Nat × Nat :=
  (b.bufSize, b.sinkCh.length)

/-- Go `SinkHandler.SetLevel` (sink.go): `b.inner.SetLevel(l)`. -/
def SinkHandler.SetLevel (ops : HandlerOps σ) (b : SinkHandler σ) (l : level) :
    SinkHandler σ :=
  { b with inner := ops.setLevel l b.inner }

/-- Go `SinkHandler.SetFormatter` (sink.go): `b.inner.SetFormatter(f)`. -/
def SinkHandler.SetFormatter (ops : HandlerOps σ) (b : SinkHandler σ)
    (f : Formatter) : SinkHandler σ :=
  { b with inner := ops.setFormatter f b.inner }

/-- One iteration of the consumer loop `SinkHandler.process` (sink.go)
in which a record was received: take the oldest queued record and
forward it to the inner handler's `Handle`.  When the queue is empty
the consumer blocks (an empty queue leaves the state unchanged: no
record is received and nothing happens until a send or a close). -/
def SinkHandler.processStep (ops : HandlerOps σ) (b : SinkHandler σ) :
    SinkHandler σ :=
  match b.sinkCh with
  | [] => b
  | rec :: rest => { b with inner := ops.handle rec b.inner, sinkCh := rest }

/-- The tail of the consumer task `SinkHandler.process` once the channel
is closed (sink.go): keep receiving until the queue is empty (each
received record goes to `inner.Handle`), then `ok` is false and the
consumer calls `inner.Close` and terminates. -/
def SinkHandler.processDrain (ops : HandlerOps σ) (inner : σ)
    (queue : List Record) : σ :=
  match queue with
  | [] => ops.close inner
  | rec :: rest => SinkHandler.processDrain ops (ops.handle rec inner) rest

/-- Go `SinkHandler.Close` (sink.go): `close(b.sinkCh); b.wg.Wait()`.
Closing the channel makes the consumer drain every queued record into
the inner handler and then close the inner handler; `wg.Wait()` blocks
the caller until that has happened, so the state `Close` returns to its
caller has an empty, closed queue and the fully drained, closed inner
handler. -/
def SinkHandler.Close (ops : HandlerOps σ) (b : SinkHandler σ) :
    SinkHandler σ :=
  { inner := SinkHandler.processDrain ops b.inner b.sinkCh
    sinkCh := []
    bufSize := b.bufSize
    chClosed := true }

/-- An atomic action in an execution of a `SinkHandler` before `Close`:
either some producer calls `Handle rec`, or the consumer performs one
iteration of `process` (receiving one record if available). -/
inductive Act where
  | handle (rec : Record)
  | consume
deriving Repr, DecidableEq

/-- A system state during an execution: the sink plus the count of drop
diagnostics written to stderr so far. -/
structure SysState (σ : Type) where
  sink  : SinkHandler σ
  drops : Nat

/-- Execute one action.  `Act.handle` follows `SinkHandler.Handle` on an
open channel (enqueue when there is room, else drop and count one
stderr diagnostic); `Act.consume` is `SinkHandler.processStep`. -/
def stepAct (ops : HandlerOps σ) (s : SysState σ) : Act → SysState σ
  | Act.handle rec =>
      if s.sink.sinkCh.length < s.sink.bufSize then
        { s with sink := { s.sink with sinkCh := s.sink.sinkCh ++ [rec] } }
      else
        { s with drops := s.drops + 1 }
  | Act.consume => { s with sink := SinkHandler.processStep ops s.sink }

/-- Run a list of actions in order (an interleaving of producer calls
and consumer iterations). -/
def runActs (ops : HandlerOps σ) (s : SysState σ) : List Act → SysState σ
  | [] => s
  | a :: rest => runActs ops (stepAct ops s a) rest

/-- The records carried by the `handle` actions of a trace, in trace
order. -/
def handleRecords : List Act → List Record
  | [] => []
  | Act.handle rec :: rest => rec :: handleRecords rest
  | Act.consume :: rest => handleRecords rest

/-- The number of `handle` actions in a trace. -/
def countHandles (acts : List Act) : Nat := (handleRecords acts).length

/-- Go `MultiHandler` struct (logger.go): a list of child handlers. -/
structure MultiHandler (σ : Type) where
  handlers : List σ

/-- Go `NewMultiHandler` (logger.go). -/
def NewMultiHandler (σ : Type) (handlers : List σ) : MultiHandler σ :=
  { handlers := handlers }

/-- Go `MultiHandler.SetFormatter` (logger.go): sets the formatter of every
child handler. -/
def MultiHandler.SetFormatter (ops : HandlerOps σ) (b : MultiHandler σ)
    (f : Formatter) : MultiHandler σ :=
  { handlers := b.handlers.map (ops.setFormatter f) }

/-- Go `MultiHandler.SetLevel` (logger.go): sets the level of every child
handler. -/
def MultiHandler.SetLevel (ops : HandlerOps σ) (b : MultiHandler σ)
    (l : level) : MultiHandler σ :=
  { handlers := b.handlers.map (ops.setLevel l) }

/-- Go `MultiHandler.Handle` (logger.go): one goroutine per child calls the
child's `Handle(rec)`; `wg.Wait()` returns only after every child's
`Handle` has returned, so the state `Handle` returns to its caller has
every child updated by exactly one `Handle rec` call. -/
def MultiHandler.Handle (ops : HandlerOps σ) (b : MultiHandler σ)
    (rec : Record) : MultiHandler σ :=
  { handlers := b.handlers.map (ops.handle rec) }

/-- Go `MultiHandler.Close` (logger.go): one goroutine per child calls the
child's `Close`; `wg.Wait()` returns only after every child's `Close`
has returned. -/
def MultiHandler.Close (ops : HandlerOps σ) (b : MultiHandler σ) :
    MultiHandler σ :=
  { handlers := b.handlers.map ops.close }

/-- The `Handler` operations of `WriterHandler` (logger.go); `SetLevel`
and `SetFormatter` are promoted from the embedded `BaseHandler`. -/
def WriterHandler.ops : HandlerOps WriterHandler where
  setLevel := fun l w => { w with base := w.base.SetLevel l }
  setFormatter := fun f w => { w with base := w.base.SetFormatter f }
  handle := fun rec w => w.Handle rec
  close := fun w => w.Close

/-- Instrumented inner handler used to observe the calls a wrapper makes
on its inner `Handler`: every `Handle` argument in arrival order, the
number of `Close` calls, the `SetLevel` arguments, and the number of
`SetFormatter` calls. -/
structure CountingHandler where
  handled    : List Record
  closeCalls : Nat
  levelCalls : List level
  fmtCalls   : Nat
deriving Repr, DecidableEq

/-- The `Handler` operations of `CountingHandler`. -/
def CountingHandler.ops : HandlerOps CountingHandler where
  setLevel := fun l s => { s with levelCalls := s.levelCalls ++ [l] }
  setFormatter := fun _ s => { s with fmtCalls := s.fmtCalls + 1 }
  handle := fun rec s => { s with handled := s.handled ++ [rec] }
  close := fun s => { s with closeCalls := s.closeCalls + 1 }

/-- A fresh `CountingHandler` that has seen no calls. -/
def CountingHandler.init : CountingHandler :=
  { handled := [], closeCalls := 0, levelCalls := [], fmtCalls := 0 }

/-- The records successfully enqueued during a trace, in enqueue order,
starting from a queue of length `q` in a sink of capacity `bufSize`: a
`handle` action enqueues its record exactly when the queue has room,
and a `consume` action removes one queued record if any. -/
def enqueuedFrom (bufSize : Nat) : Nat → List Act → List Record
  | _, [] => []
  | q, Act.handle rec :: rest =>
      if q < bufSize then rec :: enqueuedFrom bufSize (q + 1) rest
      else enqueuedFrom bufSize q rest
  | q, Act.consume :: rest => enqueuedFrom bufSize (q - 1) rest

/-- Run a trace against a fresh `SinkHandler` of capacity `C` whose
inner handler is the instrumented `c0` (no drop diagnostics yet). -/
def sinkRun (c0 : CountingHandler) (C : Nat) (acts : List Act) :
    SysState CountingHandler :=
  runActs CountingHandler.ops ⟨NewSinkHandler CountingHandler c0 C, 0⟩ acts

/-- Run a trace as in `sinkRun`, then call `SinkHandler.Close`. -/
def sinkRunClose (c0 : CountingHandler) (C : Nat) (acts : List Act) :
    SinkHandler CountingHandler :=
  SinkHandler.Close CountingHandler.ops (sinkRun c0 C acts).sink

end GoLogger

/-- Concrete formatter used for witnesses: renders the format string. -/
def fmtEx : GoLogger.Formatter := ⟨fun r => r.Format⟩

/-- A concrete record for witnesses (producer "logger 0"). -/
def recA : GoLogger.Record :=
  { Format := "test 0\n", Args := ["0"], LoggerName := "logger 0"
    Level := GoLogger.INFO, Time := 0, Filename := "main.go", Line := 10
    ProcessID := 7, ProcessName := "app" }

/-- A concrete record for witnesses (producer "logger 1"). -/
def recB : GoLogger.Record :=
  { Format := "test 1\n", Args := ["1"], LoggerName := "logger 1"
    Level := GoLogger.DEBUG, Time := 1, Filename := "main.go", Line := 11
    ProcessID := 7, ProcessName := "app" }

/-- A sink of capacity 2 with an empty queue around a fresh counter. -/
def sinkEx : GoLogger.SinkHandler GoLogger.CountingHandler :=
  GoLogger.NewSinkHandler GoLogger.CountingHandler GoLogger.CountingHandler.init 2

/-- A sink of capacity 1 whose queue is full. -/
def fullSinkEx : GoLogger.SinkHandler GoLogger.CountingHandler :=
  { inner := GoLogger.CountingHandler.init, sinkCh := [recB], bufSize := 1
    chClosed := false }

/-- Running a trace with `runActs` changes neither the queue capacity nor the channel-closed
flag of the sink: producers and the consumer only move records. -/
theorem runActs_frame {σ : Type} (ops : GoLogger.HandlerOps σ)
    (acts : List GoLogger.Act) (s : GoLogger.SysState σ) :
    (GoLogger.runActs ops s acts).sink.bufSize = s.sink.bufSize ∧
    (GoLogger.runActs ops s acts).sink.chClosed = s.sink.chClosed := by
  induction acts generalizing s with
  | nil => exact ⟨rfl, rfl⟩
  | cons a rest ih =>
    cases a with
    | handle rec =>
      by_cases h : s.sink.sinkCh.length < s.sink.bufSize <;>
        simpa [GoLogger.runActs, GoLogger.stepAct, h] using ih _
    | consume =>
      cases hq : s.sink.sinkCh with
      | nil =>
        simpa [GoLogger.runActs, GoLogger.stepAct,
          GoLogger.SinkHandler.processStep, hq] using ih _
      | cons r rest' =>
        simpa [GoLogger.runActs, GoLogger.stepAct,
          GoLogger.SinkHandler.processStep, hq] using ih _

/-- C1: a call of `SinkHandler.Handle` on a running sink enqueues the
record at the back of the queue and writes nothing to stderr when the
queue holds fewer than `bufSize` records; when the queue is full the
call leaves the queue unchanged (the record is dropped, never enqueued)
and writes exactly one fixed diagnostic line to stderr.  Both outcomes
are returned to the producer without blocking (the embedding of the Go
`select`/`default` is a total function). -/
theorem sinkHandle_enqueue_or_drop {σ : Type} (b : GoLogger.SinkHandler σ)
    (rec : GoLogger.Record) (hopen : b.chClosed = false) :
    (b.sinkCh.length < b.bufSize →
      b.Handle rec = Except.ok ({ b with sinkCh := b.sinkCh ++ [rec] }, [])) ∧
    (¬ b.sinkCh.length < b.bufSize →
      b.Handle rec = Except.ok (b, [GoLogger.dropDiagnostic])) := by
  constructor <;> intro h <;>
    simp [GoLogger.SinkHandler.Handle, hopen, h]

/-- Witness for `sinkHandle_enqueue_or_drop`: capacity 2 with an empty
queue enqueues `recA`; capacity 1 with a full queue drops `recA` with
the diagnostic line. -/
theorem sinkHandle_enqueue_or_drop_witness :
    sinkEx.Handle recA
      = Except.ok ({ sinkEx with sinkCh := sinkEx.sinkCh ++ [recA] }, []) ∧
    fullSinkEx.Handle recA
      = Except.ok (fullSinkEx, [GoLogger.dropDiagnostic]) :=
  ⟨(sinkHandle_enqueue_or_drop sinkEx recA rfl).1 (by decide),
   (sinkHandle_enqueue_or_drop fullSinkEx recA rfl).2 (by decide)⟩

/-- C8: after `SinkHandler.Close`, a call of `Handle` finds the channel
closed; the send case of its `select` is chosen and a send on a closed
channel is a runtime panic (`Except.error`), not the `default` drop
branch — no state is returned and no diagnostic is printed. -/
theorem sinkHandle_after_close_panics {σ : Type} (ops : GoLogger.HandlerOps σ)
    (b : GoLogger.SinkHandler σ) (rec : GoLogger.Record) :
    (GoLogger.SinkHandler.Close ops b).Handle rec = Except.error () := by
  simp [GoLogger.SinkHandler.Handle, GoLogger.SinkHandler.Close]

/-- C4: after any interleaving of producer `Handle` calls and consumer
iterations starting from `NewSinkHandler inner C`, `Status` returns the
pair (capacity, current queue length), and the capacity component is
the `bufSize` fixed at construction — neither the run nor `Close`
changes it.  `Status` reads two fields and, in this functional
embedding, returns no modified state: it is read-only by its type. -/
theorem sinkStatus_reports_fixed_capacity {σ : Type}
    (ops : GoLogger.HandlerOps σ) (inner : σ) (C : Nat)
    (acts : List GoLogger.Act) :
    (GoLogger.runActs ops ⟨GoLogger.NewSinkHandler σ inner C, 0⟩ acts).sink.Status
      = (C, (GoLogger.runActs ops ⟨GoLogger.NewSinkHandler σ inner C, 0⟩
              acts).sink.sinkCh.length) ∧
    (GoLogger.SinkHandler.Close ops
      (GoLogger.runActs ops ⟨GoLogger.NewSinkHandler σ inner C, 0⟩
        acts).sink).bufSize = C := by
  have h := runActs_frame ops acts ⟨GoLogger.NewSinkHandler σ inner C, 0⟩
  have hbuf : (GoLogger.runActs ops ⟨GoLogger.NewSinkHandler σ inner C, 0⟩
      acts).sink.bufSize = C := by rw [h.1]; rfl
  refine ⟨?_, ?_⟩
  · simp [GoLogger.SinkHandler.Status, hbuf]
  · simp [GoLogger.SinkHandler.Close, hbuf]

/-- C7: `SinkHandler.SetLevel` and `SinkHandler.SetFormatter` forward
their argument directly to the inner handler (exactly one `SetLevel`
respectively `SetFormatter` call on it, as the instrumented inner
handler records), do not buffer anything in the queue, and leave the
queue contents, the capacity and the channel state unchanged. -/
theorem sinkSetLevel_setFormatter_forward_only
    (b : GoLogger.SinkHandler GoLogger.CountingHandler) (l : GoLogger.level)
    (f : GoLogger.Formatter) :
    (GoLogger.SinkHandler.SetLevel GoLogger.CountingHandler.ops b l
      = { b with inner := { b.inner with
            levelCalls := b.inner.levelCalls ++ [l] } }) ∧
    (GoLogger.SinkHandler.SetFormatter GoLogger.CountingHandler.ops b f
      = { b with inner := { b.inner with
            fmtCalls := b.inner.fmtCalls + 1 } }) := by
  exact ⟨rfl, rfl⟩

/-- C3: `MultiHandler.Handle` delivers exactly one `Handle` call with
the given record to each of the K children, and the state it returns to
its caller (after the Go `wg.Wait()` barrier) reflects every child's
completed `Handle` call; likewise `Close` delivers exactly one `Close`
call to each of the K children and returns only after all completed.
The child count K is preserved, child `i` of the result is child `i`
updated by exactly one call, and with instrumented children each child
records exactly one received copy of the record (respectively one extra
`Close` call). -/
theorem multiHandler_fanout_complete {σ : Type} (ops : GoLogger.HandlerOps σ)
    (b : GoLogger.MultiHandler σ) (rec : GoLogger.Record) :
    ((GoLogger.MultiHandler.Handle ops b rec).handlers.length
      = b.handlers.length) ∧
    (∀ i : Nat, (GoLogger.MultiHandler.Handle ops b rec).handlers[i]?
      = (b.handlers[i]?).map (ops.handle rec)) ∧
    ((GoLogger.MultiHandler.Close ops b).handlers.length
      = b.handlers.length) ∧
    (∀ i : Nat, (GoLogger.MultiHandler.Close ops b).handlers[i]?
      = (b.handlers[i]?).map ops.close) ∧
    (∀ (cs : List GoLogger.CountingHandler) (i : Nat),
      ((GoLogger.MultiHandler.Handle GoLogger.CountingHandler.ops
          (GoLogger.NewMultiHandler GoLogger.CountingHandler cs)
          rec).handlers[i]?
        = (cs[i]?).map (fun c => { c with handled := c.handled ++ [rec] })) ∧
      ((GoLogger.MultiHandler.Close GoLogger.CountingHandler.ops
          (GoLogger.NewMultiHandler GoLogger.CountingHandler cs)).handlers[i]?
        = (cs[i]?).map (fun c => { c with closeCalls := c.closeCalls + 1 }))) := by
  refine ⟨?_, ?_, ?_, ?_, ?_⟩ <;>
    simp [GoLogger.MultiHandler.Handle, GoLogger.MultiHandler.Close,
      GoLogger.NewMultiHandler, GoLogger.CountingHandler.ops]

/-- C6: `MultiHandler.SetLevel` (resp. `SetFormatter`) applies the new
level (resp. formatter) to every child handler; with `WriterHandler`
children, after `SetLevel l` every child's level is `l` and a
subsequent `Handle` filters every child's output against `l`, and after
`SetFormatter f` every child's formatter is `f` and a subsequent
`Handle` formats with `f` in every child. -/
theorem multiHandler_setLevel_setFormatter_all_children {σ : Type}
    (ops : GoLogger.HandlerOps σ) (b : GoLogger.MultiHandler σ)
    (l : GoLogger.level) (f : GoLogger.Formatter) :
    (∀ i : Nat, (GoLogger.MultiHandler.SetLevel ops b l).handlers[i]?
      = (b.handlers[i]?).map (ops.setLevel l)) ∧
    (∀ i : Nat, (GoLogger.MultiHandler.SetFormatter ops b f).handlers[i]?
      = (b.handlers[i]?).map (ops.setFormatter f)) ∧
    (∀ (ws : List GoLogger.WriterHandler) (i : Nat) (rec : GoLogger.Record),
      (((GoLogger.MultiHandler.SetLevel GoLogger.WriterHandler.ops
            (GoLogger.NewMultiHandler GoLogger.WriterHandler ws)
            l).handlers[i]?).map (fun w => w.base.Level)
          = (ws[i]?).map (fun _ => l)) ∧
      (((GoLogger.MultiHandler.SetLevel GoLogger.WriterHandler.ops
            (GoLogger.NewMultiHandler GoLogger.WriterHandler ws)
            l).handlers[i]?).map (fun w => w.base.FilterAndFormat rec)
          = (ws[i]?).map (fun w =>
              if l ≥ rec.Level then w.base.Formatter.Format rec else "")) ∧
      (((GoLogger.MultiHandler.SetFormatter GoLogger.WriterHandler.ops
            (GoLogger.NewMultiHandler GoLogger.WriterHandler ws)
            f).handlers[i]?).map (fun w => w.base.Formatter)
          = (ws[i]?).map (fun _ => f)) ∧
      (((GoLogger.MultiHandler.SetFormatter GoLogger.WriterHandler.ops
            (GoLogger.NewMultiHandler GoLogger.WriterHandler ws)
            f).handlers[i]?).map (fun w => w.base.FilterAndFormat rec)
          = (ws[i]?).map (fun w =>
              if w.base.Level ≥ rec.Level then f.Format rec else ""))) := by
  refine ⟨?_, ?_, ?_⟩
  · simp [GoLogger.MultiHandler.SetLevel]
  · simp [GoLogger.MultiHandler.SetFormatter]
  · intro ws i rec
    cases hx : ws[i]? with
    | none =>
      simp [GoLogger.MultiHandler.SetLevel, GoLogger.MultiHandler.SetFormatter,
        GoLogger.NewMultiHandler, hx]
    | some w =>
      simp [GoLogger.MultiHandler.SetLevel, GoLogger.MultiHandler.SetFormatter,
        GoLogger.NewMultiHandler, hx, GoLogger.WriterHandler.ops,
        GoLogger.BaseHandler.SetLevel, GoLogger.BaseHandler.SetFormatter,
        GoLogger.BaseHandler.FilterAndFormat]

/-- C5: the level constants are `CRITICAL = 0` through `DEBUG = 5`
(higher value = more verbose); `BaseHandler.FilterAndFormat` formats a
record exactly when the configured level is greater than or equal to
the record's level, and a record whose level is strictly greater than
the configured level yields `""` and produces no output in a
`WriterHandler` (its `Handle` writes nothing). -/
theorem handler_level_filter :
    (GoLogger.CRITICAL = 0 ∧ GoLogger.ERROR = 1 ∧ GoLogger.WARNING = 2 ∧
      GoLogger.NOTICE = 3 ∧ GoLogger.INFO = 4 ∧ GoLogger.DEBUG = 5) ∧
    (∀ (h : GoLogger.BaseHandler) (rec : GoLogger.Record),
      h.FilterAndFormat rec
        = if h.Level ≥ rec.Level then h.Formatter.Format rec else "") ∧
    (∀ (h : GoLogger.BaseHandler) (rec : GoLogger.Record) (c : Bool)
        (out : List String),
      rec.Level > h.Level →
      GoLogger.WriterHandler.Handle ⟨h, c, out⟩ rec = ⟨h, c, out⟩) := by
  refine ⟨by decide, fun h rec => rfl, fun h rec c out hgt => ?_⟩
  have hn : ¬ h.Level ≥ rec.Level := not_le.mpr hgt
  simp [GoLogger.WriterHandler.Handle, GoLogger.BaseHandler.FilterAndFormat, hn]

/-- Witness for `handler_level_filter`: a `DEBUG` record on an
`INFO`-level writer handler is filtered out and nothing is written. -/
theorem handler_level_filter_witness :
    GoLogger.WriterHandler.Handle ⟨⟨GoLogger.INFO, fmtEx⟩, false, []⟩ recB
      = ⟨⟨GoLogger.INFO, fmtEx⟩, false, []⟩ :=
  handler_level_filter.2.2 ⟨GoLogger.INFO, fmtEx⟩ recB false []
    (by simp [recB, GoLogger.DEBUG, GoLogger.INFO])

/-- Appending always leaves a suffix: `hasSuffix (s ++ t) t` holds: appending `t` yields a string
with suffix `t`. -/
theorem hasSuffix_append_self (s t : String) :
    GoLogger.hasSuffix (s ++ t) t = true := by
  have h : t.data <:+ s.data ++ t.data := List.suffix_append s.data t.data
  simp [GoLogger.hasSuffix, String.data_append, List.isSuffixOf_iff_suffix, h]

/-- C10: the record built by `logger.log` always carries a `Format`
string ending in `"\n"`: when the caller's format string already ends
in a newline it is passed through unchanged, otherwise exactly one
`"\n"` is appended. -/
theorem log_format_ends_with_newline (l : GoLogger.logger)
    (lv : GoLogger.level) (format : String) (args : List String)
    (file : String) (line : Int) (time : Nat) (pid : Int) (pname : String) :
    (GoLogger.hasSuffix format "\n" = true →
      (GoLogger.logger.log l lv format args file line time pid pname).Format
        = format) ∧
    (GoLogger.hasSuffix format "\n" = false →
      (GoLogger.logger.log l lv format args file line time pid pname).Format
        = format ++ "\n") ∧
    GoLogger.hasSuffix
      (GoLogger.logger.log l lv format args file line time pid pname).Format
      "\n" = true := by
  by_cases h : GoLogger.hasSuffix format "\n" = true
  · refine ⟨fun _ => ?_, fun hfalse => ?_, ?_⟩
    · simp [GoLogger.logger.log, h]
    · rw [h] at hfalse; cases hfalse
    · simp [GoLogger.logger.log, h]
  · have h' : GoLogger.hasSuffix format "\n" = false := by
      cases hx : GoLogger.hasSuffix format "\n"
      · rfl
      · exact absurd hx h
    refine ⟨fun htrue => absurd htrue h, fun _ => ?_, ?_⟩
    · simp [GoLogger.logger.log, h']
    · simp [GoLogger.logger.log, h', hasSuffix_append_self]

/-- Witness for `log_format_ends_with_newline`: `"abc"` gets a newline
appended; `"abc\n"` is passed through unchanged. -/
theorem log_format_ends_with_newline_witness :
    (GoLogger.logger.log ⟨"n", GoLogger.INFO, 0⟩ GoLogger.INFO "abc" []
      "f.go" 1 0 7 "app").Format = "abc" ++ "\n" ∧
    (GoLogger.logger.log ⟨"n", GoLogger.INFO, 0⟩ GoLogger.INFO "abc\n" []
      "f.go" 1 0 7 "app").Format = "abc\n" :=
  ⟨(log_format_ends_with_newline ⟨"n", GoLogger.INFO, 0⟩ GoLogger.INFO "abc" []
      "f.go" 1 0 7 "app").2.1 (by decide),
   (log_format_ends_with_newline ⟨"n", GoLogger.INFO, 0⟩ GoLogger.INFO "abc\n" []
      "f.go" 1 0 7 "app").1 (by decide)⟩

/-- Consumer/producer invariant for an instrumented sink: running any
trace extends `inner.handled ++ sinkCh` by exactly the successfully
enqueued records (in enqueue order), and never calls the inner
handler's `Close`. -/
theorem runActs_counting_inv (acts : List GoLogger.Act)
    (s : GoLogger.SysState GoLogger.CountingHandler) :
    (GoLogger.runActs GoLogger.CountingHandler.ops s acts).sink.inner.handled
        ++ (GoLogger.runActs GoLogger.CountingHandler.ops s acts).sink.sinkCh
      = s.sink.inner.handled ++ s.sink.sinkCh
        ++ GoLogger.enqueuedFrom s.sink.bufSize s.sink.sinkCh.length acts ∧
    (GoLogger.runActs GoLogger.CountingHandler.ops s acts).sink.inner.closeCalls
      = s.sink.inner.closeCalls := by
  induction acts generalizing s with
  | nil => simp [GoLogger.runActs, GoLogger.enqueuedFrom]
  | cons a rest ih =>
    cases a with
    | handle rec =>
      simp only [GoLogger.runActs]
      by_cases h : s.sink.sinkCh.length < s.sink.bufSize
      · have hstep : GoLogger.stepAct GoLogger.CountingHandler.ops s
            (GoLogger.Act.handle rec)
            = ⟨⟨s.sink.inner, s.sink.sinkCh ++ [rec], s.sink.bufSize,
                s.sink.chClosed⟩, s.drops⟩ := by
          simp [GoLogger.stepAct, h]
        rw [hstep]
        have ih' := ih ⟨⟨s.sink.inner, s.sink.sinkCh ++ [rec], s.sink.bufSize,
          s.sink.chClosed⟩, s.drops⟩
        simp only [List.length_append, List.length_singleton] at ih'
        refine ⟨?_, ih'.2⟩
        rw [ih'.1]
        simp [GoLogger.enqueuedFrom, h]
      · have hstep : GoLogger.stepAct GoLogger.CountingHandler.ops s
            (GoLogger.Act.handle rec) = ⟨s.sink, s.drops + 1⟩ := by
          simp [GoLogger.stepAct, h]
        rw [hstep]
        have ih' := ih ⟨s.sink, s.drops + 1⟩
        refine ⟨?_, ih'.2⟩
        rw [ih'.1]
        simp [GoLogger.enqueuedFrom, h]
    | consume =>
      simp only [GoLogger.runActs]
      cases hq : s.sink.sinkCh with
      | nil =>
        have hstep : GoLogger.stepAct GoLogger.CountingHandler.ops s
            GoLogger.Act.consume = ⟨s.sink, s.drops⟩ := by
          simp [GoLogger.stepAct, GoLogger.SinkHandler.processStep, hq]
        rw [hstep]
        have ih' := ih ⟨s.sink, s.drops⟩
        refine ⟨?_, ih'.2⟩
        rw [ih'.1]
        simp [GoLogger.enqueuedFrom, hq]
      | cons r rest' =>
        have hstep : GoLogger.stepAct GoLogger.CountingHandler.ops s
            GoLogger.Act.consume
            = ⟨⟨{ s.sink.inner with handled := s.sink.inner.handled ++ [r] },
                rest', s.sink.bufSize, s.sink.chClosed⟩, s.drops⟩ := by
          simp [GoLogger.stepAct, GoLogger.SinkHandler.processStep, hq,
            GoLogger.CountingHandler.ops]
        rw [hstep]
        have ih' := ih ⟨⟨{ s.sink.inner with
          handled := s.sink.inner.handled ++ [r] }, rest', s.sink.bufSize,
          s.sink.chClosed⟩, s.drops⟩
        refine ⟨?_, ih'.2⟩
        rw [ih'.1]
        simp [GoLogger.enqueuedFrom, hq]

/-- Draining a queue into an instrumented inner handler forwards every
queued record (in order) and then calls `Close` exactly once. -/
theorem processDrain_counting (inner : GoLogger.CountingHandler)
    (queue : List GoLogger.Record) :
    GoLogger.SinkHandler.processDrain GoLogger.CountingHandler.ops inner queue
      = { inner with handled := inner.handled ++ queue, closeCalls := inner.closeCalls + 1 } := by
  induction queue generalizing inner with
  | nil => simp [GoLogger.SinkHandler.processDrain, GoLogger.CountingHandler.ops]
  | cons r rest ih =>
    show GoLogger.SinkHandler.processDrain GoLogger.CountingHandler.ops
      (GoLogger.CountingHandler.ops.handle r inner) rest = _
    rw [ih]
    simp [GoLogger.CountingHandler.ops]

/-- C2: during any interleaving of producer calls and consumer
iterations the inner handler's `Close` is never called; the sink's
`Close` then delivers every record that was successfully enqueued and
not yet forwarded — so the inner handler has received, in enqueue
order, exactly the successfully enqueued records (none lost) — and
calls the inner handler's `Close` exactly once, strictly after the
drain (the consumer's terminal action); `Close` returns to its caller
only with the queue fully drained (`sinkCh = []`, i.e. `wg.Wait()` has
seen the consumer finish). -/
theorem sinkClose_drains_then_closes_inner (acts : List GoLogger.Act)
    (c0 : GoLogger.CountingHandler) (C : Nat) :
    (GoLogger.sinkRun c0 C acts).sink.inner.closeCalls = c0.closeCalls ∧
    (GoLogger.sinkRunClose c0 C acts).inner.handled
      = c0.handled ++ GoLogger.enqueuedFrom C 0 acts ∧
    (GoLogger.sinkRunClose c0 C acts).inner.closeCalls = c0.closeCalls + 1 ∧
    (GoLogger.sinkRunClose c0 C acts).sinkCh = [] := by
  have inv := runActs_counting_inv acts
    ⟨GoLogger.NewSinkHandler GoLogger.CountingHandler c0 C, 0⟩
  simp only [GoLogger.NewSinkHandler, List.length_nil, List.append_nil] at inv
  refine ⟨inv.2, ?_, ?_, rfl⟩
  · show (GoLogger.SinkHandler.Close GoLogger.CountingHandler.ops
      (GoLogger.sinkRun c0 C acts).sink).inner.handled = _
    rw [GoLogger.SinkHandler.Close]
    simp only [processDrain_counting]
    simpa [GoLogger.sinkRun, GoLogger.NewSinkHandler] using inv.1
  · show (GoLogger.SinkHandler.Close GoLogger.CountingHandler.ops
      (GoLogger.sinkRun c0 C acts).sink).inner.closeCalls = _
    rw [GoLogger.SinkHandler.Close]
    simp only [processDrain_counting]
    simpa [GoLogger.sinkRun, GoLogger.NewSinkHandler] using inv.2

/-- If the capacity can absorb the whole trace (current queue length
plus the number of remaining producer calls fits in `bufSize`), then no
record is ever dropped: the drop counter is unchanged and
`inner.handled ++ sinkCh` is extended by every handled record in trace
order. -/
theorem runActs_no_drop (acts : List GoLogger.Act)
    (s : GoLogger.SysState GoLogger.CountingHandler)
    (hcap : s.sink.sinkCh.length + GoLogger.countHandles acts
      ≤ s.sink.bufSize) :
    (GoLogger.runActs GoLogger.CountingHandler.ops s acts).drops = s.drops ∧
    (GoLogger.runActs GoLogger.CountingHandler.ops s acts).sink.inner.handled
        ++ (GoLogger.runActs GoLogger.CountingHandler.ops s acts).sink.sinkCh
      = s.sink.inner.handled ++ s.sink.sinkCh
        ++ GoLogger.handleRecords acts := by
  induction acts generalizing s with
  | nil => simp [GoLogger.runActs, GoLogger.handleRecords]
  | cons a rest ih =>
    cases a with
    | handle rec =>
      have hcount : GoLogger.countHandles (GoLogger.Act.handle rec :: rest)
          = GoLogger.countHandles rest + 1 := by
        simp [GoLogger.countHandles, GoLogger.handleRecords]
      rw [hcount] at hcap
      have h : s.sink.sinkCh.length < s.sink.bufSize := by omega
      simp only [GoLogger.runActs]
      have hstep : GoLogger.stepAct GoLogger.CountingHandler.ops s
          (GoLogger.Act.handle rec)
          = ⟨⟨s.sink.inner, s.sink.sinkCh ++ [rec], s.sink.bufSize,
              s.sink.chClosed⟩, s.drops⟩ := by
        simp [GoLogger.stepAct, h]
      rw [hstep]
      have ih' := ih ⟨⟨s.sink.inner, s.sink.sinkCh ++ [rec], s.sink.bufSize,
        s.sink.chClosed⟩, s.drops⟩ (by simp; omega)
      refine ⟨ih'.1, ?_⟩
      rw [ih'.2]
      simp [GoLogger.handleRecords]
    | consume =>
      have hcount : GoLogger.countHandles (GoLogger.Act.consume :: rest)
          = GoLogger.countHandles rest := by
        simp [GoLogger.countHandles, GoLogger.handleRecords]
      rw [hcount] at hcap
      simp only [GoLogger.runActs]
      cases hq : s.sink.sinkCh with
      | nil =>
        have hstep : GoLogger.stepAct GoLogger.CountingHandler.ops s
            GoLogger.Act.consume = ⟨s.sink, s.drops⟩ := by
          simp [GoLogger.stepAct, GoLogger.SinkHandler.processStep, hq]
        rw [hstep]
        have ih' := ih ⟨s.sink, s.drops⟩ hcap
        refine ⟨ih'.1, ?_⟩
        rw [ih'.2]
        simp [GoLogger.handleRecords, hq]
      | cons r rest' =>
        have hstep : GoLogger.stepAct GoLogger.CountingHandler.ops s
            GoLogger.Act.consume
            = ⟨⟨{ s.sink.inner with handled := s.sink.inner.handled ++ [r] },
                rest', s.sink.bufSize, s.sink.chClosed⟩, s.drops⟩ := by
          simp [GoLogger.stepAct, GoLogger.SinkHandler.processStep, hq,
            GoLogger.CountingHandler.ops]
        rw [hstep]
        have hlen : s.sink.sinkCh.length = rest'.length + 1 := by
          rw [hq]; simp
        have ih' := ih ⟨⟨{ s.sink.inner with
          handled := s.sink.inner.handled ++ [r] }, rest', s.sink.bufSize,
          s.sink.chClosed⟩, s.drops⟩ (by simp; omega)
        refine ⟨ih'.1, ?_⟩
        rw [ih'.2]
        simp [GoLogger.handleRecords, hq]

/-- The two filters on a predicate and its negation split the length of
a list. -/
theorem length_filter_partition {α : Type} (p : α → Bool) (l : List α) :
    (l.filter p).length + (l.filter (fun a => !(p a))).length = l.length := by
  induction l with
  | nil => rfl
  | cons a t ih => by_cases hx : p a <;> simp [List.filter_cons, hx] <;> omega

/-- A list whose elements fall into `names.length` pairwise-distinct key
classes of `M` elements each has `names.length * M` elements. -/
theorem length_eq_mul_of_uniform_filter {α : Type} (key : α → String)
    (l : List α) (names : List String) (M : Nat) (hnd : names.Nodup)
    (hall : ∀ r ∈ l, key r ∈ names)
    (hM : ∀ n ∈ names, (l.filter (fun r => key r == n)).length = M) :
    l.length = names.length * M := by
  induction names generalizing l with
  | nil =>
    cases l with
    | nil => simp
    | cons a t => exact absurd (hall a (by simp)) (by simp)
  | cons n ns ih =>
    have hn' : n ∉ ns := (List.nodup_cons.mp hnd).1
    have hnd' : ns.Nodup := (List.nodup_cons.mp hnd).2
    have hall' : ∀ r ∈ l.filter (fun r => !(key r == n)), key r ∈ ns := by
      intro r hr
      rw [List.mem_filter] at hr
      have hmem := hall r hr.1
      have hne : ¬ (key r = n) := by
        intro he
        rw [he] at hr
        simp at hr
      rcases List.mem_cons.mp hmem with h1 | h1
      · exact absurd h1 hne
      · exact h1
    have hM' : ∀ m ∈ ns,
        ((l.filter (fun r => !(key r == n))).filter
          (fun r => key r == m)).length = M := by
      intro m hm
      have hmn : m ≠ n := fun e => hn' (e ▸ hm)
      rw [List.filter_filter]
      have hcong : ∀ a, ((key a == m) && !(key a == n)) = (key a == m) := by
        intro a
        by_cases h1 : key a = m
        · have h2 : (key a == n) = false := by
            rw [h1]
            exact beq_eq_false_iff_ne.mpr hmn
          simp [h1, h2, hmn]
        · have h2 : (key a == m) = false := beq_eq_false_iff_ne.mpr h1
          simp [h2]
      calc (l.filter fun a => key a == m && !(key a == n)).length
          = (l.filter fun a => key a == m).length := by
            congr 1
            exact List.filter_congr (fun a _ => hcong a)
        _ = M := hM m (List.mem_cons_of_mem n hm)
    have hpart := length_filter_partition (fun r => key r == n) l
    have hrec := ih (l.filter (fun r => !(key r == n))) hnd' hall' hM'
    have hone := hM n (List.mem_cons_self n ns)
    have : l.length = M + ns.length * M := by omega
    rw [this]
    simp [List.length_cons, Nat.succ_mul]
    omega

/-- C9: if N producers each successfully emit M records (trace-wise:
every interleaving whose `handle` actions comprise exactly M records
per each of N distinct logger names) into a sink whose capacity is at
least the total number of `Handle` calls, then no enqueue ever finds
the queue full (no drop diagnostic is printed), and after `Close` the
inner handler has received exactly the N×M handled records: M per
producer name and N×M in total. -/
theorem sink_no_loss_under_capacity (acts : List GoLogger.Act) (C N M : Nat)
    (names : List String)
    (hcap : GoLogger.countHandles acts ≤ C)
    (hnodup : names.Nodup)
    (hN : names.length = N)
    (hall : ∀ r ∈ GoLogger.handleRecords acts, r.LoggerName ∈ names)
    (hM : ∀ n ∈ names,
      ((GoLogger.handleRecords acts).filter
        (fun r => r.LoggerName == n)).length = M) :
    (GoLogger.sinkRun GoLogger.CountingHandler.init C acts).drops = 0 ∧
    (GoLogger.sinkRunClose GoLogger.CountingHandler.init C acts).inner.handled
      = GoLogger.handleRecords acts ∧
    (∀ n ∈ names,
      (((GoLogger.sinkRunClose GoLogger.CountingHandler.init C
        acts).inner.handled).filter (fun r => r.LoggerName == n)).length
        = M) ∧
    ((GoLogger.sinkRunClose GoLogger.CountingHandler.init C
      acts).inner.handled).length = N * M := by
  have hrun := runActs_no_drop acts
    ⟨GoLogger.NewSinkHandler GoLogger.CountingHandler
      GoLogger.CountingHandler.init C, 0⟩
    (by simpa [GoLogger.NewSinkHandler] using hcap)
  have hhandled : (GoLogger.sinkRunClose GoLogger.CountingHandler.init C
      acts).inner.handled = GoLogger.handleRecords acts := by
    show (GoLogger.SinkHandler.Close GoLogger.CountingHandler.ops
      (GoLogger.sinkRun GoLogger.CountingHandler.init C acts).sink).inner.handled = _
    rw [GoLogger.SinkHandler.Close]
    simp only [processDrain_counting]
    simpa [GoLogger.sinkRun, GoLogger.NewSinkHandler,
      GoLogger.CountingHandler.init] using hrun.2
  refine ⟨?_, hhandled, ?_, ?_⟩
  · simpa [GoLogger.sinkRun, GoLogger.NewSinkHandler] using hrun.1
  · intro n hn
    rw [hhandled]
    exact hM n hn
  · rw [hhandled, ← hN]
    exact length_eq_mul_of_uniform_filter (fun r => r.LoggerName)
      (GoLogger.handleRecords acts) names M hnodup hall hM

/-- Witness for `sink_no_loss_under_capacity`: two producers
("logger 0" and "logger 1") each emit 2 records into a capacity-4 sink,
with one consumer iteration interleaved; nothing is dropped and the
inner handler ends up with 2 × 2 records. -/
theorem sink_no_loss_under_capacity_witness :
    (GoLogger.sinkRun GoLogger.CountingHandler.init 4
      [GoLogger.Act.handle recA, GoLogger.Act.handle recB,
       GoLogger.Act.consume, GoLogger.Act.handle recA,
       GoLogger.Act.handle recB]).drops = 0 ∧
    ((GoLogger.sinkRunClose GoLogger.CountingHandler.init 4
      [GoLogger.Act.handle recA, GoLogger.Act.handle recB,
       GoLogger.Act.consume, GoLogger.Act.handle recA,
       GoLogger.Act.handle recB]).inner.handled).length = 2 * 2 :=
  have h := sink_no_loss_under_capacity
    [GoLogger.Act.handle recA, GoLogger.Act.handle recB,
     GoLogger.Act.consume, GoLogger.Act.handle recA,
     GoLogger.Act.handle recB] 4 2 2 ["logger 0", "logger 1"]
    (by decide) (by decide) (by decide) (by decide) (by decide)
  ⟨h.1, h.2.2.2⟩
